import Mathlib

/-!
Verification of the scroll-observer module (`src/scroll.js`).

The embedding below translates the source into Lean over `ℚ`:
JavaScript numbers are modelled as rationals, with the non-finite
values (`Infinity`, `-Infinity`, `NaN`) produced by division made
explicit through the `JSDiv` type.  Helper functions imported by
`scroll.js` from sibling modules that are not part of the provided
sources (`clamp`, `round`, `interpolate`, `lerp`, `getRelativeValue`,
`setValue`, the linked-list child helpers and the linked-object
interface) are modelled from the spec; each such definition carries a
doc comment saying so.
-/

/-- A JavaScript division result: either a finite number or one of the
non-finite values `Infinity`, `-Infinity`, `NaN` that division can
produce. -/
inductive JSDiv where
  | fin (q : ℚ)
  | posInf
  | negInf
  | nan
deriving DecidableEq, Repr

/-- JavaScript division `a / b`: division by zero yields `Infinity`,
`-Infinity` or `NaN` according to the sign of the numerator. -/
def jsDivide (a b : ℚ) : JSDiv :=
  if b = 0 then (if 0 < a then .posInf else if a < 0 then .negInf else .nan)
  else .fin (a / b)

/-- Modelled from the spec: the helper `clamp(v, min, max)` used by the
progress computation, `v < min ? min : v > max ? max : v`. -/
def jsClamp (v mn mx : ℚ) : ℚ :=
  if v < mn then mn else if v > mx then mx else v

/-- Modelled from the spec: the helper `round(v, decimalLength)`
("final result always rounded to the nearest integer pixel" for
`decimalLength = 0`), i.e. `Math.round(v * 10^decimalLength) /
10^decimalLength` with `Math.round` rounding halves toward `+∞`. -/
def jsRound (v : ℚ) (decimalLength : ℕ) : ℚ :=
  (⌊v * 10 ^ decimalLength + 1 / 2⌋ : ℚ) / 10 ^ decimalLength

/-- The helper `clamp` applied to a JS division result: comparisons against
`-Infinity` / `Infinity` take the `min` / `max` branch, comparisons
against `NaN` are all false so `NaN` passes through. -/
def jsClampDiv (v : JSDiv) (mn mx : ℚ) : JSDiv :=
  match v with
  | .fin q => .fin (jsClamp q mn mx)
  | .negInf => .fin mn
  | .posInf => .fin mx
  | .nan => .nan

/-- The helper `round` applied to a JS division result; non-finite values pass
through. -/
def jsRoundDiv (v : JSDiv) (decimalLength : ℕ) : JSDiv :=
  match v with
  | .fin q => .fin (jsRound q decimalLength)
  | x => x

/-- The cached bounds of a `ScrollObserver`: `offsetStart`,
`offsetEnd` and `distance`, as assigned by `updateBounds`. -/
structure SOBounds where
  offsetStart : ℚ
  offsetEnd : ℚ
  distance : ℚ
deriving DecidableEq, Repr

/-- The `progress` getter of `ScrollObserver` (scroll.js lines
577-580): `const p = (this.scroll - this.offsetStart) / this.distance;
return p === Infinity || isNaN(p) ? 0 : round(clamp(p, 0, 1), 6)`.
The guard catches only `Infinity` and `NaN`; a `-Infinity` quotient
flows through `clamp`, whose `v < min` branch yields `0`. -/
def progressAt (b : SOBounds) (scroll : ℚ) : ℚ :=
  let p := jsDivide (scroll - b.offsetStart) b.distance
  if p = JSDiv.posInf ∨ p = JSDiv.nan then 0
  else
    match jsRoundDiv (jsClampDiv p 0 1) 6 with
    | JSDiv.fin q => q
    | _ => 0

lemma jsClamp_nonneg (v mx : ℚ) (h : 0 ≤ mx) : 0 ≤ jsClamp v 0 mx := by
  unfold jsClamp
  split_ifs with h1 h2 <;> linarith

lemma jsClamp_le (v mx : ℚ) (h : 0 ≤ mx) : jsClamp v 0 mx ≤ mx := by
  unfold jsClamp
  split_ifs with h1 h2 <;> linarith

lemma jsClamp_mono (mn mx : ℚ) (hmm : mn ≤ mx) {a b : ℚ} (h : a ≤ b) :
    jsClamp a mn mx ≤ jsClamp b mn mx := by
  unfold jsClamp
  split_ifs <;> linarith

lemma jsRound_nonneg {v : ℚ} (dl : ℕ) (h : 0 ≤ v) : 0 ≤ jsRound v dl := by
  unfold jsRound
  have hp : (0 : ℚ) < 10 ^ dl := by positivity
  apply div_nonneg _ (le_of_lt hp)
  have h0 : (0 : ℤ) ≤ ⌊v * 10 ^ dl + 1 / 2⌋ := by
    apply Int.floor_nonneg.mpr
    have : 0 ≤ v * 10 ^ dl := by positivity
    linarith
  exact_mod_cast h0

lemma jsRound_le_one {v : ℚ} (dl : ℕ) (h : v ≤ 1) : jsRound v dl ≤ 1 := by
  unfold jsRound
  have hp : (0 : ℚ) < 10 ^ dl := by positivity
  rw [div_le_one hp]
  have h2 : ⌊v * 10 ^ dl + 1 / 2⌋ < (10 ^ dl : ℤ) + 1 := by
    apply Int.floor_lt.mpr
    push_cast
    nlinarith
  have h3 : ⌊v * 10 ^ dl + 1 / 2⌋ ≤ (10 ^ dl : ℤ) := by omega
  calc ((⌊v * 10 ^ dl + 1 / 2⌋ : ℤ) : ℚ) ≤ ((10 ^ dl : ℤ) : ℚ) := by exact_mod_cast h3
    _ = 10 ^ dl := by push_cast; ring

lemma jsRound_mono (dl : ℕ) {a b : ℚ} (h : a ≤ b) : jsRound a dl ≤ jsRound b dl := by
  unfold jsRound
  have hp : (0 : ℚ) < 10 ^ dl := by positivity
  have hf : ⌊a * 10 ^ dl + 1 / 2⌋ ≤ ⌊b * 10 ^ dl + 1 / 2⌋ := by
    apply Int.floor_le_floor
    nlinarith
  have hq : ((⌊a * 10 ^ dl + 1 / 2⌋ : ℤ) : ℚ) ≤ ((⌊b * 10 ^ dl + 1 / 2⌋ : ℤ) : ℚ) := by
    exact_mod_cast hf
  gcongr

lemma progressAt_of_dist_zero (b : SOBounds) (s : ℚ) (h : b.distance = 0) :
    progressAt b s = 0 := by
  unfold progressAt jsDivide
  rcases lt_trichotomy (s - b.offsetStart) 0 with hlt | heq | hgt
  · simp only [h, if_pos rfl, if_neg (by linarith : ¬(0 : ℚ) < s - b.offsetStart), if_pos hlt]
    norm_num [jsClampDiv, jsRoundDiv, jsRound]
  · simp [h, heq]
  · simp [h, hgt]

lemma progressAt_nonneg (b : SOBounds) (s : ℚ) : 0 ≤ progressAt b s := by
  unfold progressAt
  rcases hd : jsDivide (s - b.offsetStart) b.distance with q | _ | _ | _ <;>
    simp only [hd, jsClampDiv, jsRoundDiv]
  · simp only [if_neg (by simp : ¬(JSDiv.fin q = JSDiv.posInf ∨ JSDiv.fin q = JSDiv.nan))]
    exact jsRound_nonneg 6 (jsClamp_nonneg q 1 (by norm_num))
  · simp
  · simp only [if_neg (by simp : ¬(JSDiv.negInf = JSDiv.posInf ∨ JSDiv.negInf = JSDiv.nan))]
    norm_num [jsRound]
  · simp

lemma progressAt_le_one (b : SOBounds) (s : ℚ) : progressAt b s ≤ 1 := by
  unfold progressAt
  rcases hd : jsDivide (s - b.offsetStart) b.distance with q | _ | _ | _ <;>
    simp only [hd, jsClampDiv, jsRoundDiv]
  · simp only [if_neg (by simp : ¬(JSDiv.fin q = JSDiv.posInf ∨ JSDiv.fin q = JSDiv.nan))]
    exact jsRound_le_one 6 (jsClamp_le q 1 (by norm_num))
  · simp
  · simp only [if_neg (by simp : ¬(JSDiv.negInf = JSDiv.posInf ∨ JSDiv.negInf = JSDiv.nan))]
    norm_num [jsRound]
  · simp

lemma progressAt_mono (b : SOBounds) (hd : 0 ≤ b.distance) {s1 s2 : ℚ} (h : s1 ≤ s2) :
    progressAt b s1 ≤ progressAt b s2 := by
  rcases eq_or_lt_of_le hd with h0 | hpos
  · rw [progressAt_of_dist_zero b s1 h0.symm, progressAt_of_dist_zero b s2 h0.symm]
  · have hne : b.distance ≠ 0 := ne_of_gt hpos
    unfold progressAt jsDivide
    simp only [if_neg hne]
    simp only [if_neg (by simp : ¬((JSDiv.fin ((s1 - b.offsetStart) / b.distance)) = JSDiv.posInf ∨
      (JSDiv.fin ((s1 - b.offsetStart) / b.distance)) = JSDiv.nan)),
      if_neg (by simp : ¬((JSDiv.fin ((s2 - b.offsetStart) / b.distance)) = JSDiv.posInf ∨
      (JSDiv.fin ((s2 - b.offsetStart) / b.distance)) = JSDiv.nan))]
    simp only [jsClampDiv, jsRoundDiv]
    apply jsRound_mono
    apply jsClamp_mono 0 1 (by norm_num)
    gcongr

/-- Claim C1: for every `ScrollObserver` with fixed cached bounds and
every scroll position `s`, the `progress` getter returns a value in
`[0, 1]`; whenever the division `(s - offsetStart) / distance` produces
`Infinity` or `NaN` (in particular when `distance = 0`), it returns
`0`; and for fixed bounds, `progress` is a non-decreasing function of
`s` on the interval `[offsetStart, offsetEnd]` (given the
`updateBounds` invariant `0 ≤ distance`). -/
theorem C1_progress_range_zero_monotone (b : SOBounds) (s : ℚ) :
    (0 ≤ progressAt b s ∧ progressAt b s ≤ 1)
    ∧ (jsDivide (s - b.offsetStart) b.distance = JSDiv.posInf ∨
       jsDivide (s - b.offsetStart) b.distance = JSDiv.nan → progressAt b s = 0)
    ∧ (b.distance = 0 → progressAt b s = 0)
    ∧ (∀ s1 s2 : ℚ, 0 ≤ b.distance → b.offsetStart ≤ s1 → s1 ≤ s2 →
        s2 ≤ b.offsetEnd → progressAt b s1 ≤ progressAt b s2) := by
  refine ⟨⟨progressAt_nonneg b s, progressAt_le_one b s⟩, ?_, progressAt_of_dist_zero b s,
    fun s1 s2 hd _ h12 _ => progressAt_mono b hd h12⟩
  intro hdiv
  unfold progressAt
  rcases hdiv with h | h <;> simp [h]

/-- Witness for C1 at concrete inputs: bounds `(0, 10, 10)`, scroll
positions `3`, `2 ≤ 5`. -/
theorem C1_progress_witness :
    (0 ≤ progressAt ⟨0, 10, 10⟩ 3 ∧ progressAt ⟨0, 10, 10⟩ 3 ≤ 1)
    ∧ progressAt ⟨0, 10, 0⟩ 3 = 0
    ∧ progressAt ⟨0, 10, 10⟩ 2 ≤ progressAt ⟨0, 10, 10⟩ 5 := by
  refine ⟨(C1_progress_range_zero_monotone ⟨0, 10, 10⟩ 3).1, ?_, ?_⟩
  · exact (C1_progress_range_zero_monotone ⟨0, 10, 0⟩ 3).2.2.1 rfl
  · exact (C1_progress_range_zero_monotone ⟨0, 10, 10⟩ 0).2.2.2 2 5 (by norm_num)
      (by norm_num) (by norm_num) (by norm_num)

/-! ## Threshold resolver: `convertValueToPx` and `parseBoundValue`

Threshold strings are modelled in pre-parsed form: `SimpleVal` is the
result of `decomposeRawValue` on a string without a relative operator
(a number with an optional unit suffix) or one of the positional
keywords, and `BoundVal` distinguishes a plain JS number, a simple
string, and a string `"A<op>=B"` matched by `relativeValuesExecRgx`
and split into its two operands. -/

/-- A simple (operator-free) threshold value: a plain number, a
percentage, a number with a CSS unit (converted externally via
`convertValueUnit`), or one of the keywords recognised by
`convertValueToPx`. -/
inductive SimpleVal where
  | num (n : ℚ)
  | percent (n : ℚ)
  | unitVal (n : ℚ) (u : String)
  | kwTop
  | kwLeft
  | kwStart
  | kwBottom
  | kwRight
  | kwEnd
  | kwCenter
  | kwMin
  | kwMax
deriving DecidableEq, Repr

/-- The relative-arithmetic operators of `relativeValuesExecRgx`
(`+=`, `-=`, `*=`), identified by their first character. -/
inductive RelOp where
  | add
  | sub
  | mul
deriving DecidableEq, Repr

/-- Modelled from the spec: `getRelativeValue(x, y, operator)` combines
the two independently resolved operands with the operator. -/
def getRelativeValue (x y : ℚ) : RelOp → ℚ
  | RelOp.add => x + y
  | RelOp.sub => x - y
  | RelOp.mul => x * y

/-- A `ScrollThresholdValue` as dispatched by `parseBoundValue`: a
non-string (plain number), a simple string, or a relative-arithmetic
string split into operator and operands. -/
inductive BoundVal where
  | num (n : ℚ)
  | simple (v : SimpleVal)
  | rel (op : RelOp) (a b : SimpleVal)
deriving DecidableEq, Repr

/-- The resolver `convertValueToPx($el, v, size, under, over)` (scroll.js lines
294-311).  The external unit converter `convertValueUnit` is passed in
as `conv`.  `under`/`over` are optional JS parameters; a comparison
against `undefined` is false, which the `Option.getD 0` encoding
reproduces (`none.getD 0 < 0` and `0 < none.getD 0` are both false).
The keyword cases of the second match cannot occur because keywords
were substituted away by the first match. -/
def convertValueToPx (conv : ℚ → String → ℚ) (v : SimpleVal) (size : ℚ)
    (under over : Option ℚ) : ℚ :=
  let clampMin := v = SimpleVal.kwMin
  let clampMax := v = SimpleVal.kwMax
  let value : SimpleVal :=
    match v with
    | .kwTop | .kwLeft | .kwStart | .kwMin => .num 0
    | .kwBottom | .kwRight | .kwEnd | .kwMax => .percent 100
    | .kwCenter => .percent 50
    | x => x
  let px : ℚ :=
    match value with
    | .num n => n
    | .percent n => n / 100 * size
    | .unitVal n u => conv n u
    | _ => 0
  let px1 := if clampMax ∧ under.getD 0 < 0 then px + under.getD 0 else px
  let px2 := if clampMin ∧ 0 < over.getD 0 then px1 + over.getD 0 else px1
  px2

/-- The resolver `parseBoundValue($el, v, size, under, over)` (scroll.js lines
321-350): numbers pass to the final rounding unchanged; simple strings
go through `convertValueToPx`; relative strings resolve both operands
and combine them, except that a `min`/`max` first operand clamps the
arithmetic result against the (adjustment-free) `min`/`max` boundary.
The final result is rounded to the nearest integer. -/
def parseBoundValue (conv : ℚ → String → ℚ) (v : BoundVal) (size : ℚ)
    (under over : Option ℚ) : ℚ :=
  let value : ℚ :=
    match v with
    | .num n => n
    | .simple s => convertValueToPx conv s size under over
    | .rel op a b =>
      let clampMin := a = SimpleVal.kwMin
      let clampMax := a = SimpleVal.kwMax
      let valueAPx := convertValueToPx conv a size under over
      let valueBPx := convertValueToPx conv b size under over
      if clampMin then
        let mn := getRelativeValue (convertValueToPx conv SimpleVal.kwMin size none none) valueBPx op
        if mn < valueAPx then valueAPx else mn
      else if clampMax then
        let mx := getRelativeValue (convertValueToPx conv SimpleVal.kwMax size none none) valueBPx op
        if mx > valueAPx then valueAPx else mx
      else getRelativeValue valueAPx valueBPx op
  jsRound value 0

/-- Claim C5: threshold keyword and percentage resolution at axis size
200: `"center" ↦ 100`, `"start" ↦ 0`, `"end" ↦ 200`, and the relative
expression `"50%+=20" ↦ 120`. -/
theorem C5_threshold_concrete (conv : ℚ → String → ℚ) :
    parseBoundValue conv (BoundVal.simple SimpleVal.kwCenter) 200 none none = 100
    ∧ parseBoundValue conv (BoundVal.simple SimpleVal.kwStart) 200 none none = 0
    ∧ parseBoundValue conv (BoundVal.simple SimpleVal.kwEnd) 200 none none = 200
    ∧ parseBoundValue conv
        (BoundVal.rel RelOp.add (SimpleVal.percent 50) (SimpleVal.num 20)) 200 none none
      = 120 := by
  refine ⟨?_, ?_, ?_, ?_⟩
  · norm_num [parseBoundValue, convertValueToPx, getRelativeValue, jsRound]
  · norm_num [parseBoundValue, convertValueToPx, getRelativeValue, jsRound]
  · norm_num [parseBoundValue, convertValueToPx, getRelativeValue, jsRound]
  · norm_num [parseBoundValue, convertValueToPx, getRelativeValue, jsRound]
    rw [if_neg (by decide), if_neg (by decide)]
    norm_num

/-- Counterexample to claim C6 as stated: the plain (non-integer)
number `11/2 = 5.5` is not returned unmodified — `parseBoundValue`
rounds every result to the nearest integer, giving `6`. -/
theorem C6_counterexample :
    parseBoundValue (fun _ _ => 0) (BoundVal.num (11 / 2)) 200 none none = 6
    ∧ (11 : ℚ) / 2 ≠ 6 := by
  constructor
  · norm_num [parseBoundValue, jsRound]
  · norm_num

/-- Claim C6, amended: a plain-number input `v` reaches the final
rounding unmodified, so `parseBoundValue` returns `v` rounded to the
nearest integer (in particular integer inputs pass through
unmodified), for any size and adjustment parameters; as a total
function it never throws. -/
theorem C6_number_passthrough (conv : ℚ → String → ℚ) (size : ℚ)
    (under over : Option ℚ) :
    (∀ q : ℚ, parseBoundValue conv (BoundVal.num q) size under over = jsRound q 0)
    ∧ (∀ n : ℤ, parseBoundValue conv (BoundVal.num (n : ℚ)) size under over = (n : ℚ)) := by
  constructor
  · intro q
    rfl
  · intro n
    show jsRound (n : ℚ) 0 = (n : ℚ)
    unfold jsRound
    have h1 : (n : ℚ) * 10 ^ 0 + 1 / 2 = (n : ℚ) + 1 / 2 := by norm_num
    rw [h1, Int.floor_int_add]
    norm_num

/-- Counterexample to claim C4 as stated: with axis size `100.7`, the
expression `"max-=50"` resolves to `51`, which exceeds the arithmetic
result `max − operandB = 100.7 − 50 = 50.7` (the final nearest-integer
rounding can push the result above the raw arithmetic bound). -/
theorem C4_counterexample :
    parseBoundValue (fun _ _ => 0)
        (BoundVal.rel RelOp.sub SimpleVal.kwMax (SimpleVal.num 50)) (1007 / 10) none none = 51
    ∧ getRelativeValue
        (convertValueToPx (fun _ _ => 0) SimpleVal.kwMax (1007 / 10) none none)
        (convertValueToPx (fun _ _ => 0) (SimpleVal.num 50) (1007 / 10) none none) RelOp.sub
      = 1007 / 10 - 50
    ∧ ¬(51 : ℚ) ≤ 1007 / 10 - 50 := by
  refine ⟨?_, ?_, by norm_num⟩
  · norm_num [parseBoundValue, convertValueToPx, getRelativeValue, jsRound]
    rw [if_neg (by decide)]
    norm_num
  · norm_num [convertValueToPx, getRelativeValue]

/-- Claim C4, amended: an expression whose first operand is `max`
resolves to `min(arithmetic result, underflow-adjusted max)` before the
final rounding, so it never exceeds the nearest-integer rounding of the
arithmetic result `max ∘ operandB` (but may be smaller, being further
limited by the adjusted max); symmetrically an expression whose first
operand is `min` never yields less than the rounding of the arithmetic
combination of `min` with operandB. -/
theorem C4_minmax_clamping (conv : ℚ → String → ℚ) (op : RelOp) (b : SimpleVal)
    (size : ℚ) (under over : Option ℚ) :
    parseBoundValue conv (BoundVal.rel op SimpleVal.kwMax b) size under over
      ≤ jsRound (getRelativeValue (convertValueToPx conv SimpleVal.kwMax size none none)
          (convertValueToPx conv b size under over) op) 0
    ∧ jsRound (getRelativeValue (convertValueToPx conv SimpleVal.kwMin size none none)
          (convertValueToPx conv b size under over) op) 0
      ≤ parseBoundValue conv (BoundVal.rel op SimpleVal.kwMin b) size under over := by
  constructor
  · have e1 : parseBoundValue conv (BoundVal.rel op SimpleVal.kwMax b) size under over
        = jsRound
            (if getRelativeValue (convertValueToPx conv SimpleVal.kwMax size none none)
                  (convertValueToPx conv b size under over) op
                > convertValueToPx conv SimpleVal.kwMax size under over
             then convertValueToPx conv SimpleVal.kwMax size under over
             else getRelativeValue (convertValueToPx conv SimpleVal.kwMax size none none)
                  (convertValueToPx conv b size under over) op) 0 := rfl
    rw [e1]
    apply jsRound_mono
    split_ifs with h
    · linarith
    · linarith
  · have e2 : parseBoundValue conv (BoundVal.rel op SimpleVal.kwMin b) size under over
        = jsRound
            (if getRelativeValue (convertValueToPx conv SimpleVal.kwMin size none none)
                  (convertValueToPx conv b size under over) op
                < convertValueToPx conv SimpleVal.kwMin size under over
             then convertValueToPx conv SimpleVal.kwMin size under over
             else getRelativeValue (convertValueToPx conv SimpleVal.kwMin size none none)
                  (convertValueToPx conv b size under over) op) 0 := rfl
    rw [e2]
    apply jsRound_mono
    split_ifs with h
    · linarith
    · linarith

/-! ## `ScrollObserver.updateBounds` (scroll.js lines 729-845)

The DOM reads of `updateBounds` (bounding rectangle, container
geometry) are passed in as a `MeasureInput`; the sticky-ancestor
neutralisation and the debug overlay are presentational and do not
affect the computed bounds.  The enter/leave threshold parameters are
modelled in pre-parsed form (`ThresholdSpec`). -/

/-- The measured geometry consumed by `updateBounds`: the target's
offset along the axis, the target size, the container size and the
scrollable content size. -/
structure MeasureInput where
  offset : ℚ
  targetSize : ℚ
  containerSize : ℚ
  scrollSize : ℚ
deriving DecidableEq, Repr

/-- An `enter`/`leave` threshold parameter as dispatched by
`updateBounds`: a string with one part, a string `"container target"`
with two parts, an object with optional `container`/`target` fields, or
a plain number (which overrides the container anchor only). -/
inductive ThresholdSpec where
  | strOne (container : BoundVal)
  | strTwo (container target : BoundVal)
  | obj (container target : Option BoundVal)
  | num (n : ℚ)
deriving DecidableEq, Repr

/-- Resolution of the `enter` parameter to `(enterContainer,
enterTarget)` with defaults `('end', 'start')` (scroll.js lines
786-805). -/
def resolveEnter : ThresholdSpec → BoundVal × BoundVal
  | .strOne c => (c, BoundVal.simple SimpleVal.kwStart)
  | .strTwo c t => (c, t)
  | .obj c t => (c.getD (BoundVal.simple SimpleVal.kwEnd), t.getD (BoundVal.simple SimpleVal.kwStart))
  | .num n => (BoundVal.num n, BoundVal.simple SimpleVal.kwStart)

/-- Resolution of the `leave` parameter to `(leaveContainer,
leaveTarget)` with defaults `('start', 'end')` (scroll.js lines
788-817). -/
def resolveLeave : ThresholdSpec → BoundVal × BoundVal
  | .strOne c => (c, BoundVal.simple SimpleVal.kwEnd)
  | .strTwo c t => (c, t)
  | .obj c t => (c.getD (BoundVal.simple SimpleVal.kwStart), t.getD (BoundVal.simple SimpleVal.kwEnd))
  | .num n => (BoundVal.num n, BoundVal.simple SimpleVal.kwEnd)

/-- The fields assigned by `updateBounds`. -/
structure BoundsResult where
  offset : ℚ
  offsetStart : ℚ
  offsetEnd : ℚ
  distance : ℚ
  coords : ℚ × ℚ × ℚ × ℚ
deriving DecidableEq, Repr

/-- The bound computation of `updateBounds` (scroll.js lines 780-835):
threshold resolution, the `under`/`over` adjustments, the
`offsetStart`/`offsetEnd` derivation and the non-negative clamp of
`distance`. -/
def updateBoundsCore (conv : ℚ → String → ℚ) (enter leave : ThresholdSpec)
    (m : MeasureInput) : BoundsResult :=
  let containerSize := m.containerSize
  let scrollSize := m.scrollSize
  let maxScroll := scrollSize - containerSize
  let ec := (resolveEnter enter).1
  let et := (resolveEnter enter).2
  let lc := (resolveLeave leave).1
  let lt := (resolveLeave leave).2
  let parsedEnterTarget := parseBoundValue conv et m.targetSize none none
  let parsedLeaveTarget := parseBoundValue conv lt m.targetSize none none
  let under := (parsedEnterTarget + m.offset) - containerSize
  let over := (parsedLeaveTarget + m.offset) - maxScroll
  let parsedEnterContainer := parseBoundValue conv ec containerSize (some under) (some over)
  let parsedLeaveContainer := parseBoundValue conv lc containerSize (some under) (some over)
  let offsetStart := parsedEnterTarget + m.offset - parsedEnterContainer
  let offsetEnd := parsedLeaveTarget + m.offset - parsedLeaveContainer
  let scrollDelta := offsetEnd - offsetStart
  { offset := m.offset
    offsetStart := offsetStart
    offsetEnd := offsetEnd
    distance := if scrollDelta ≤ 0 then 0 else scrollDelta
    coords := (parsedEnterTarget, parsedLeaveTarget, parsedEnterContainer, parsedLeaveContainer) }

/-- Claim C7: after every call to `updateBounds` the `distance` field
is non-negative, it is `0` whenever the computed
`offsetEnd - offsetStart` is zero or negative, and with the resulting
bounds `progress` can never be negative. -/
theorem C7_distance_nonneg (conv : ℚ → String → ℚ) (enter leave : ThresholdSpec)
    (m : MeasureInput) :
    0 ≤ (updateBoundsCore conv enter leave m).distance
    ∧ ((updateBoundsCore conv enter leave m).offsetEnd
        - (updateBoundsCore conv enter leave m).offsetStart ≤ 0 →
        (updateBoundsCore conv enter leave m).distance = 0)
    ∧ ∀ s : ℚ, 0 ≤ progressAt ⟨(updateBoundsCore conv enter leave m).offsetStart,
        (updateBoundsCore conv enter leave m).offsetEnd,
        (updateBoundsCore conv enter leave m).distance⟩ s := by
  have hdef : (updateBoundsCore conv enter leave m).distance =
      if (updateBoundsCore conv enter leave m).offsetEnd
          - (updateBoundsCore conv enter leave m).offsetStart ≤ 0 then 0
      else (updateBoundsCore conv enter leave m).offsetEnd
          - (updateBoundsCore conv enter leave m).offsetStart := rfl
  refine ⟨?_, ?_, fun s => progressAt_nonneg _ s⟩
  · rw [hdef]
    split_ifs with h
    · linarith
    · linarith
  · intro h
    rw [hdef, if_pos h]

/-- Witness for C7 at a concrete input with inverted bounds: enter
container anchor `0`, leave container anchor `500`, geometry
`(offset 0, target 100, container 200, scroll 300)` gives
`offsetEnd - offsetStart = -400 ≤ 0` and `distance = 0`. -/
theorem C7_distance_witness :
    ((updateBoundsCore (fun _ _ => 0) (ThresholdSpec.num 0) (ThresholdSpec.num 500)
        ⟨0, 100, 200, 300⟩).offsetEnd
      - (updateBoundsCore (fun _ _ => 0) (ThresholdSpec.num 0) (ThresholdSpec.num 500)
        ⟨0, 100, 200, 300⟩).offsetStart ≤ 0)
    ∧ (updateBoundsCore (fun _ _ => 0) (ThresholdSpec.num 0) (ThresholdSpec.num 500)
        ⟨0, 100, 200, 300⟩).distance = 0 := by
  have hb := C7_distance_nonneg (fun _ _ => 0) (ThresholdSpec.num 0) (ThresholdSpec.num 500)
    ⟨0, 100, 200, 300⟩
  have h0 : (updateBoundsCore (fun _ _ => 0) (ThresholdSpec.num 0) (ThresholdSpec.num 500)
      ⟨0, 100, 200, 300⟩).offsetEnd
      - (updateBoundsCore (fun _ _ => 0) (ThresholdSpec.num 0) (ThresholdSpec.num 500)
      ⟨0, 100, 200, 300⟩).offsetStart ≤ 0 := by
    norm_num [updateBoundsCore, resolveEnter, resolveLeave, parseBoundValue, convertValueToPx,
      jsRound]
  exact ⟨h0, hb.2.1 h0⟩

/-! ## Linked-object bracketing in `updateBounds` (claim C8) -/

/-- Modelled from the spec: the linked object's interface boundary, a
seekable time cursor.  `seek(time, muteCallbacks)` moves
`currentTime` to the given time. -/
structure LinkedObj where
  currentTime : ℚ
deriving DecidableEq, Repr

/-- Modelled from the spec: `linked.seek(t, true)` sets the time cursor
with callbacks muted. -/
def LinkedObj.seek (_l : LinkedObj) (t : ℚ) (_muteCallbacks : Bool) : LinkedObj :=
  { currentTime := t }

/-- One recorded `seek` call on the linked object. -/
structure SeekCall where
  time : ℚ
  mute : Bool
deriving DecidableEq, Repr

/-- The method `updateBounds` including the linked-object bracketing (scroll.js
lines 744-747 and 839-841): when a linked object is present, its
current time is recorded, it is seeked to `0` (muted) before the
measurement and seeked back to the recorded time (muted) afterwards. -/
def updateBounds (conv : ℚ → String → ℚ) (enter leave : ThresholdSpec)
    (m : MeasureInput) (linked : Option LinkedObj) :
    BoundsResult × Option LinkedObj × List SeekCall :=
  match linked with
  | none => (updateBoundsCore conv enter leave m, none, [])
  | some l =>
    let linkedTime := l.currentTime
    let l1 := l.seek 0 true
    let res := updateBoundsCore conv enter leave m
    let l2 := l1.seek linkedTime true
    (res, some l2, [⟨0, true⟩, ⟨linkedTime, true⟩])

/-- Claim C8: for every `ScrollObserver` with a linked object,
`updateBounds` leaves the linked object's `currentTime` unchanged — it
records the time, seeks to `0` (muted) for the measurement, seeks back
to the recorded time, and computes the same bounds as without a linked
object. -/
theorem C8_linked_time_preserved (conv : ℚ → String → ℚ) (enter leave : ThresholdSpec)
    (m : MeasureInput) (l : LinkedObj) :
    (updateBounds conv enter leave m (some l)).2.1 = some l
    ∧ (updateBounds conv enter leave m (some l)).2.2 = [⟨0, true⟩, ⟨l.currentTime, true⟩]
    ∧ (updateBounds conv enter leave m (some l)).1 = updateBoundsCore conv enter leave m := by
  exact ⟨rfl, rfl, rfl⟩

/-! ## `ScrollObserver.revert` (scroll.js lines 960-972, claim C9) -/

/-- The container state that `revert` touches: the attached observer
list (by observer index) and whether the container itself has been
torn down. -/
structure ContainerModel where
  children : List ℕ
  torn : Bool
deriving DecidableEq, Repr

/-- The observer state that `revert` touches. -/
structure ObsModel where
  oid : ℕ
  dbg : Bool
  reverted : Bool
deriving DecidableEq, Repr

/-- The observable effects of one `revert` call. -/
inductive RevertEffect where
  | removedFromList
  | containerTorn
  | debugRemoved
deriving DecidableEq, Repr

/-- The method `ScrollObserver.revert` (scroll.js lines 960-972): an early return
when already reverted; otherwise `removeChild(container, this)`
(modelled from the spec as list removal), container teardown when the
list became empty, debug removal when `_debug`, and setting
`reverted`. -/
def revertObserver (c : ContainerModel) (o : ObsModel) :
    ContainerModel × ObsModel × List RevertEffect :=
  if o.reverted then (c, o, [])
  else
    let c1 : ContainerModel := { c with children := c.children.erase o.oid }
    let tearDown := c1.children = []
    let c2 : ContainerModel := if tearDown then { c1 with torn := true } else c1
    let evs := [RevertEffect.removedFromList]
      ++ (if tearDown then [RevertEffect.containerTorn] else [])
      ++ (if o.dbg then [RevertEffect.debugRemoved] else [])
    (c2, { o with reverted := true }, evs)

/-- Claim C9: calling `revert()` on an already-reverted
`ScrollObserver` is a no-op — after any first `revert`, a second
`revert` returns the same container and observer state and performs no
effects. -/
theorem C9_revert_idempotent (c : ContainerModel) (o : ObsModel) :
    revertObserver (revertObserver c o).1 (revertObserver c o).2.1
      = ((revertObserver c o).1, (revertObserver c o).2.1, ([] : List RevertEffect)) := by
  by_cases h : o.reverted
  · simp [revertObserver, h]
  · simp [revertObserver, h]

/-! ## Constructor sync-mode resolution (scroll.js lines 416-466, claim C10)

A string-valued `sync` parameter is modelled pre-split: `words` is the
result of splitting the raw string on a single space (so the empty
string is `[""]`), and `recognizedEase` says whether `parseEasings`
resolves the raw string to a dedicated easing rather than its identity
fallback `none`. -/

/-- A string `sync` parameter in pre-split form. -/
structure SyncStrVal where
  words : List String
  recognizedEase : Bool
deriving DecidableEq, Repr

/-- The `sync` constructor parameter: omitted, boolean, number, string,
or an easing function (`isNoneEase` marks the identity easing `none`
itself). -/
inductive SyncParam where
  | undef
  | boolean (b : Bool)
  | number (q : ℚ)
  | strv (s : SyncStrVal)
  | easingFn (isNoneEase : Bool)
deriving DecidableEq, Repr

/-- JS truthiness of a `sync` parameter value (the empty string, in
pre-split form `[""]`, is falsy). -/
def SyncParam.truthy : SyncParam → Bool
  | .undef => false
  | .boolean b => b
  | .number q => decide (q ≠ 0)
  | .strv s => decide (s.words ≠ [""] ∧ s.words ≠ [])
  | .easingFn _ => true

/-- Modelled from the spec: `setValue(v, default)` returns the default
exactly when `v` is undefined. -/
def setValueSync (v dflt : SyncParam) : SyncParam :=
  if v = SyncParam.undef then dflt else v

/-- Modelled from the spec: whether `parseEasings(syncMode)` returns
the identity fallback easing `none` — it does for anything that is not
a recognised easing name or a dedicated easing function. -/
def parseEasingsIsNone : SyncParam → Bool
  | .strv s => !s.recognizedEase
  | .easingFn isNone => isNone
  | _ => true

/-- The sync-related observer fields assigned by the constructor.  The
`onSync*Name` fields record which linked-object method name each sync
callback closure is bound to (`none` = `noop`). -/
structure SyncConfig where
  sync : Bool
  syncEaseInstalled : Bool
  syncSmooth : Option ℚ
  methods : Option (List String)
  biDir : Bool
  onSyncEnterName : Option String
  onSyncLeaveName : Option String
  onSyncEnterForwardName : Option String
  onSyncLeaveForwardName : Option String
  onSyncEnterBackwardName : Option String
  onSyncLeaveBackwardName : Option String
deriving DecidableEq, Repr

/-- The sync-mode resolution of the `ScrollObserver` constructor
(scroll.js lines 418-466): `syncMode = setValue(parameters.sync,
'play pause')`, the `isLinear` / `isEase` / `isSmooth` / `isMethods`
classification, the method-name split, `biDirSync`, and the resulting
`sync`, `syncEase`, `syncSmooth` and `onSync*` assignments. -/
def mkSyncConfig (p : SyncParam) : SyncConfig :=
  let syncMode := setValueSync p (SyncParam.strv ⟨["play", "pause"], false⟩)
  let t := syncMode.truthy
  let isLinear := t && (match syncMode with
      | .strv s => decide (s.words = ["linear"])
      | .easingFn isNone => isNone
      | _ => false)
  let isEase := t && !(parseEasingsIsNone syncMode && !isLinear)
  let isSmooth := t && (match syncMode with
      | .number _ => true
      | .boolean b => b
      | _ => isLinear)
  let isMethods := t && (match syncMode with | .strv _ => true | _ => false)
      && !isEase && !isSmooth
  let syncMethods : Option (List String) :=
    if isMethods then
      (match syncMode with | .strv s => some s.words | _ => none)
    else none
  let biDirSync := isMethods
      && (match syncMethods with | some l => decide (2 < l.length) | none => false)
  let mget (i : ℕ) : Option String :=
    match syncMethods with | some l => l.get? i | none => none
  { sync := isEase || isSmooth || syncMethods.isSome
    syncEaseInstalled := isEase
    syncSmooth :=
      if isSmooth then
        (if (match syncMode with | .boolean b => b | _ => false) || isLinear then some 1
         else match syncMode with | .number q => some q | _ => none)
      else none
    methods := syncMethods
    biDir := biDirSync
    onSyncEnterName := if syncMethods.isSome && !biDirSync && (mget 0).isSome then mget 0 else none
    onSyncLeaveName := if syncMethods.isSome && !biDirSync && (mget 1).isSome then mget 1 else none
    onSyncEnterForwardName :=
      if syncMethods.isSome && biDirSync && (mget 0).isSome then mget 0 else none
    onSyncLeaveForwardName :=
      if syncMethods.isSome && biDirSync && (mget 1).isSome then mget 1 else none
    onSyncEnterBackwardName :=
      if syncMethods.isSome && biDirSync && (mget 2).isSome then mget 2 else none
    onSyncLeaveBackwardName :=
      if syncMethods.isSome && biDirSync && (mget 3).isSome then mget 3 else none }

/-- The linked object viewed through the sync-method closures: the set
of method names it defines. -/
structure LinkedMethods where
  methodNames : List String
deriving DecidableEq, Repr

/-- The closure built for a sync method name,
`() => { const linked = this.linked; return linked && linked[m] ?
linked[m]() : null; }` (scroll.js lines 424-429): the list of
linked-object methods actually invoked by one call. -/
def invokeSyncMethod (linked : Option LinkedMethods) (m : Option String) : List String :=
  match m, linked with
  | some name, some l => if name ∈ l.methodNames then [name] else []
  | _, _ => []

/-- Claim C10: with the `sync` option omitted, the constructor defaults
to method-trigger synchronization `'play pause'`: `this.sync` is true,
`onSyncEnter` invokes `linked.play()` and `onSyncLeave` invokes
`linked.pause()` whenever a linked object defining the method is
present (and they are no-ops otherwise); and for any explicit `sync`
value, synchronization is disabled exactly when the value is falsy. -/
theorem C10_sync_default :
    (mkSyncConfig SyncParam.undef).sync = true
    ∧ (mkSyncConfig SyncParam.undef).onSyncEnterName = some "play"
    ∧ (mkSyncConfig SyncParam.undef).onSyncLeaveName = some "pause"
    ∧ (∀ l : LinkedMethods, "play" ∈ l.methodNames →
        invokeSyncMethod (some l) (mkSyncConfig SyncParam.undef).onSyncEnterName = ["play"])
    ∧ (∀ l : LinkedMethods, "play" ∉ l.methodNames →
        invokeSyncMethod (some l) (mkSyncConfig SyncParam.undef).onSyncEnterName = [])
    ∧ (∀ l : LinkedMethods, "pause" ∈ l.methodNames →
        invokeSyncMethod (some l) (mkSyncConfig SyncParam.undef).onSyncLeaveName = ["pause"])
    ∧ (∀ l : LinkedMethods, "pause" ∉ l.methodNames →
        invokeSyncMethod (some l) (mkSyncConfig SyncParam.undef).onSyncLeaveName = [])
    ∧ invokeSyncMethod none (mkSyncConfig SyncParam.undef).onSyncEnterName = []
    ∧ (∀ p : SyncParam, p ≠ SyncParam.undef →
        ((mkSyncConfig p).sync = false ↔ p.truthy = false)) := by
  refine ⟨rfl, rfl, rfl, ?_, ?_, ?_, ?_, rfl, ?_⟩
  · intro l hl
    show (if "play" ∈ l.methodNames then ["play"] else []) = ["play"]
    rw [if_pos hl]
  · intro l hl
    show (if "play" ∈ l.methodNames then ["play"] else []) = []
    rw [if_neg hl]
  · intro l hl
    show (if "pause" ∈ l.methodNames then ["pause"] else []) = ["pause"]
    rw [if_pos hl]
  · intro l hl
    show (if "pause" ∈ l.methodNames then ["pause"] else []) = []
    rw [if_neg hl]
  · intro p hp
    cases p with
    | undef => exact absurd rfl hp
    | boolean b =>
      cases b <;> simp [mkSyncConfig, setValueSync, SyncParam.truthy, parseEasingsIsNone]
    | number q =>
      by_cases hq : q = 0 <;>
        simp [mkSyncConfig, setValueSync, SyncParam.truthy, parseEasingsIsNone, hq]
    | strv s =>
      by_cases hw : s.words ≠ [""] ∧ s.words ≠ [] <;>
        by_cases hr : s.recognizedEase <;>
        by_cases hlin : s.words = ["linear"] <;>
        simp_all [mkSyncConfig, setValueSync, SyncParam.truthy, parseEasingsIsNone]
    | easingFn isNone =>
      cases isNone <;> simp [mkSyncConfig, setValueSync, SyncParam.truthy, parseEasingsIsNone]

/-! ## `ScrollObserver.handleScroll` (scroll.js lines 847-958)

The observer state read and written by `handleScroll` is `SOState`;
the per-construction configuration is `SOConfig`; a linked object, when
present, is observed through the fields `handleScroll` reads from it
(`LinkedEnv`).  Each call returns the successor state together with the
ordered list of observable events (callback invocations, seeks, wake
restarts, self-revert). -/

/-- The callback invocations and effects of one `handleScroll` call, in
program order. -/
inductive SOEvent where
  | syncEnter
  | enter
  | syncEnterForward
  | enterForward
  | syncEnterBackward
  | enterBackward
  | syncLeave
  | leave
  | syncLeaveForward
  | leaveForward
  | syncLeaveBackward
  | leaveBackward
  | update
  | seek (t : ℚ)
  | syncComplete
  | wakeRestart
  | revert
deriving DecidableEq, Repr

/-- The constructor-resolved configuration consumed by `handleScroll`:
`this.repeat` (named `rpt`), `this.sync`, `this.syncEase` and
`this.syncSmooth`. -/
structure SOConfig where
  rpt : Bool
  sync : Bool
  syncEase : Option (ℚ → ℚ)
  syncSmooth : Option ℚ

/-- The linked-object fields read by `handleScroll`:
`linked.progress`, `linked.duration`, `linked.completed`. -/
structure LinkedEnv where
  lprogress : ℚ
  lduration : ℚ
  lcompleted : Bool
deriving DecidableEq, Repr

/-- The mutable observer state touched by `handleScroll`. -/
structure SOState where
  began : Bool
  completed : Bool
  isInView : Bool
  forceEnter : Bool
  hasEntered : Bool
  reverted : Bool
  prevProgress : ℚ
  bounds : SOBounds
deriving DecidableEq, Repr

/-- JS truthiness of the `syncSmooth` field (`null` or a number). -/
def smoothTruthy : Option ℚ → Bool
  | some k => decide (k ≠ 0)
  | none => false

/-- Modelled from the spec: the helper `interpolate(start, end,
progress)`, plain linear interpolation. -/
def interpolateQ (a b t : ℚ) : ℚ := a + (b - a) * t

/-- Modelled from the spec: `lerp(start, end, amount, false)` — the
exponential-smoothing step with frame-rate renderability disabled,
moving `start` toward `end` by the given amount. -/
def lerpQ (a b amount : ℚ) : ℚ := a + (b - a) * amount

/-- The method `ScrollObserver.handleScroll` (scroll.js lines 847-958), one tick:
direction-aware enter/leave detection with the `forceEnter` edge case,
the optional sync remap of `p`, update/seek dispatch, completion and
conditional self-revert.  The `backward` parameter is the container's
direction flag for this observer's axis.  Returns the successor state
and the events in program order. -/
def handleScroll (cfg : SOConfig) (linked : Option LinkedEnv) (backward : Bool)
    (scroll : ℚ) (st : SOState) : SOState × List SOEvent :=
  let shouldSeek := linked.isSome && (cfg.syncEase.isSome || smoothTruthy cfg.syncSmooth)
  let isBefore := decide (scroll ≤ st.bounds.offsetStart)
  let isAfter := decide (st.bounds.offsetEnd ≤ scroll)
  let isInView := !isBefore && !isAfter
  let isOnTheEdge := decide (scroll = st.bounds.offsetStart) || decide (scroll = st.bounds.offsetEnd)
  let forceEnter := !st.hasEntered && isOnTheEdge
  let p0 := progressAt st.bounds scroll
  let began1 := if isBefore && st.began then false else st.began
  let began2 := if decide (0 < p0) && !began1 then true else began1
  let seekStep : ℚ × Bool × Bool × List SOEvent :=
    match linked with
    | some env =>
      if cfg.syncEase.isSome || smoothTruthy cfg.syncSmooth then
        let lp := env.lprogress
        let p1 :=
          match cfg.syncSmooth with
          | some k =>
            if k ≠ 0 then
              (if k < 1 then
                let step : ℚ := 1 / 10000
                let snap : ℚ :=
                  if lp < p0 ∧ p0 = 1 then step else if lp > p0 ∧ p0 = 0 then -step else 0
                jsRound (lerpQ lp p0 (interpolateQ (1 / 100) (2 / 10) k) + snap) 6
              else p0)
            else (match cfg.syncEase with | some f => f p0 | none => p0)
          | none => (match cfg.syncEase with | some f => f p0 | none => p0)
        let hasUpdated0 := decide (p1 ≠ st.prevProgress)
        let syncCompleted0 := decide (lp = 1)
        let evWake :=
          if hasUpdated0 && !syncCompleted0 && (smoothTruthy cfg.syncSmooth && decide (lp ≠ 0))
          then [SOEvent.wakeRestart] else []
        (p1, hasUpdated0, syncCompleted0, evWake)
      else (p0, false, false, [])
    | none => (p0, false, false, [])
  let p := seekStep.1
  let hasUpdated0 := seekStep.2.1
  let syncCompleted0 := seekStep.2.2.1
  let evWake := seekStep.2.2.2
  let enterGuard := (isInView && !st.isInView) || (forceEnter && !st.forceEnter && !st.hasEntered)
  let isInView1 := if enterGuard && isInView then true else st.isInView
  let fireEnter := enterGuard && (!st.forceEnter || !st.hasEntered)
  let forceEnter1 :=
    if enterGuard then
      (if fireEnter then (if forceEnter then true else st.forceEnter)
       else (if isInView then false else st.forceEnter))
    else st.forceEnter
  let hasEntered1 := if fireEnter then true else st.hasEntered
  let evEnter :=
    if fireEnter then
      [SOEvent.syncEnter, SOEvent.enter]
        ++ (if backward then [SOEvent.syncEnterBackward, SOEvent.enterBackward]
            else [SOEvent.syncEnterForward, SOEvent.enterForward])
    else []
  let hasUpdated1 := if isInView || (!isInView && isInView1) then true else hasUpdated0
  let linkedDuration := (linked.map LinkedEnv.lduration).getD 0
  let evUpdate :=
    if hasUpdated1 then
      (if shouldSeek then [SOEvent.seek (linkedDuration * p)] else []) ++ [SOEvent.update]
    else []
  let fireLeave := !isInView && isInView1
  let isInView2 := if fireLeave then false else isInView1
  let evLeave :=
    if fireLeave then
      [SOEvent.syncLeave, SOEvent.leave]
        ++ (if backward then [SOEvent.syncLeaveBackward, SOEvent.leaveBackward]
            else [SOEvent.syncLeaveForward, SOEvent.leaveForward])
    else []
  let syncCompleted1 :=
    if fireLeave && (cfg.sync && !smoothTruthy cfg.syncSmooth) then true else syncCompleted0
  let linkedCompleted := (linked.map LinkedEnv.lcompleted).getD false
  let completionFires :=
    decide (1 ≤ p) && began2 && !st.completed && ((cfg.sync && syncCompleted1) || !cfg.sync)
  let evComplete := if completionFires && cfg.sync then [SOEvent.syncComplete] else []
  let completed1 := if completionFires then true else st.completed
  let revertFires :=
    completionFires && ((!cfg.rpt && !linked.isSome) || (!cfg.rpt && linked.isSome && linkedCompleted))
  let evRevert := if revertFires then [SOEvent.revert] else []
  let reverted1 := if revertFires then true else st.reverted
  let completed2 := if decide (p < 1) && completed1 then false else completed1
  (⟨began2, completed2, isInView2, forceEnter1, hasEntered1, reverted1, p, st.bounds⟩,
   evWake ++ evEnter ++ evUpdate ++ evLeave ++ evComplete ++ evRevert)

/-- Folding `handleScroll` over a list of sampled scroll positions the
way the container's scroll ticker does (scroll.js lines 130-133): a
reverted observer has removed itself from the container's child list
and receives no further calls. -/
def runScroll (cfg : SOConfig) (linked : Option LinkedEnv) (backward : Bool)
    (st : SOState) : List ℚ → SOState × List SOEvent
  | [] => (st, [])
  | s :: rest =>
    if st.reverted then (st, [])
    else
      let r1 := handleScroll cfg linked backward s st
      let r2 := runScroll cfg linked backward r1.1 rest
      (r2.1, r1.2 ++ r2.2)

/-- The enter/leave-family callback events. -/
def isEnterLeave : SOEvent → Bool
  | .syncEnter | .enter | .syncEnterForward | .enterForward | .syncEnterBackward | .enterBackward
  | .syncLeave | .leave | .syncLeaveForward | .leaveForward | .syncLeaveBackward | .leaveBackward =>
    true
  | _ => false

lemma filter_enterLeave_complete (c : Bool) :
    (if c then [SOEvent.syncComplete] else []).filter isEnterLeave = [] := by
  cases c <;> rfl

lemma filter_enterLeave_update (c : Bool) :
    (if c then [SOEvent.update] else []).filter isEnterLeave = [] := by
  cases c <;> rfl

lemma handleScroll_bounds (cfg : SOConfig) (linked : Option LinkedEnv) (backward : Bool)
    (s : ℚ) (st : SOState) :
    (handleScroll cfg linked backward s st).1.bounds = st.bounds := rfl

/-- A tick with the scroll outside the view, not on an untouched edge,
while not in view: no enter/leave events, tracked flags unchanged. -/
lemma step_silent (cfg : SOConfig) (s : ℚ) (st : SOState)
    (hiv : st.isInView = false)
    (hnoenter : st.hasEntered = true ∨ (s ≠ st.bounds.offsetStart ∧ s ≠ st.bounds.offsetEnd))
    (hout : s ≤ st.bounds.offsetStart ∨ st.bounds.offsetEnd ≤ s)
    (hr : cfg.rpt = true) :
    (handleScroll cfg none false s st).1.isInView = false
    ∧ (handleScroll cfg none false s st).1.hasEntered = st.hasEntered
    ∧ (handleScroll cfg none false s st).1.forceEnter = st.forceEnter
    ∧ (handleScroll cfg none false s st).1.reverted = st.reverted
    ∧ (handleScroll cfg none false s st).2.filter isEnterLeave = [] := by
  have hedge : (!st.hasEntered && (decide (s = st.bounds.offsetStart)
      || decide (s = st.bounds.offsetEnd))) = false := by
    rcases hnoenter with h | ⟨h1, h2⟩
    · simp [h]
    · simp [h1, h2]
  have hview : (!(decide (s ≤ st.bounds.offsetStart)) && !(decide (st.bounds.offsetEnd ≤ s)))
      = false := by
    rcases hout with h | h
    · simp [h]
    · simp [h]
  simp [handleScroll, hiv, hedge, hview, hr, filter_enterLeave_complete, filter_enterLeave_update]

/-- A tick strictly inside the bounds from a fresh (never-entered)
state: the enter callbacks fire once, in order, with the forward
variants under forward direction. -/
lemma step_enter_interior (cfg : SOConfig) (s : ℚ) (st : SOState)
    (hiv : st.isInView = false) (hhe : st.hasEntered = false) (hfe : st.forceEnter = false)
    (h1 : st.bounds.offsetStart < s) (h2 : s < st.bounds.offsetEnd)
    (hr : cfg.rpt = true) :
    (handleScroll cfg none false s st).1.isInView = true
    ∧ (handleScroll cfg none false s st).1.hasEntered = true
    ∧ (handleScroll cfg none false s st).1.forceEnter = false
    ∧ (handleScroll cfg none false s st).1.reverted = st.reverted
    ∧ (handleScroll cfg none false s st).2.filter isEnterLeave
        = [SOEvent.syncEnter, SOEvent.enter, SOEvent.syncEnterForward, SOEvent.enterForward] := by
  have hb : ¬(s ≤ st.bounds.offsetStart) := not_le.mpr h1
  have ha : ¬(st.bounds.offsetEnd ≤ s) := not_le.mpr h2
  have he1 : s ≠ st.bounds.offsetStart := ne_of_gt h1
  have he2 : s ≠ st.bounds.offsetEnd := ne_of_lt h2
  simp [handleScroll, hiv, hhe, hfe, hb, ha, he1, he2, hr,
    filter_enterLeave_complete, filter_enterLeave_update, isEnterLeave]

/-- A tick landing exactly on `offsetStart` from a fresh state: the
`forceEnter` branch fires the enter callbacks while the observer stays
out of view, and marks `forceEnter`. -/
lemma step_enter_edge_start (cfg : SOConfig) (s : ℚ) (st : SOState)
    (hiv : st.isInView = false) (hhe : st.hasEntered = false) (hfe : st.forceEnter = false)
    (heq : s = st.bounds.offsetStart) (hlt : st.bounds.offsetStart < st.bounds.offsetEnd)
    (hr : cfg.rpt = true) :
    (handleScroll cfg none false s st).1.isInView = false
    ∧ (handleScroll cfg none false s st).1.hasEntered = true
    ∧ (handleScroll cfg none false s st).1.forceEnter = true
    ∧ (handleScroll cfg none false s st).1.reverted = st.reverted
    ∧ (handleScroll cfg none false s st).2.filter isEnterLeave
        = [SOEvent.syncEnter, SOEvent.enter, SOEvent.syncEnterForward, SOEvent.enterForward] := by
  have hb : s ≤ st.bounds.offsetStart := le_of_eq heq
  have ha : ¬(st.bounds.offsetEnd ≤ s) := by rw [heq]; exact not_le.mpr hlt
  simp [handleScroll, hiv, hhe, hfe, hb, ha, heq, hr,
    filter_enterLeave_complete, filter_enterLeave_update, isEnterLeave]

/-- A tick strictly inside the bounds after an edge (`forceEnter`)
entry: the observer silently moves into view and clears `forceEnter`;
no enter/leave callbacks fire. -/
lemma step_transition (cfg : SOConfig) (s : ℚ) (st : SOState)
    (hiv : st.isInView = false) (hhe : st.hasEntered = true) (hfe : st.forceEnter = true)
    (h1 : st.bounds.offsetStart < s) (h2 : s < st.bounds.offsetEnd)
    (hr : cfg.rpt = true) :
    (handleScroll cfg none false s st).1.isInView = true
    ∧ (handleScroll cfg none false s st).1.hasEntered = true
    ∧ (handleScroll cfg none false s st).1.forceEnter = false
    ∧ (handleScroll cfg none false s st).1.reverted = st.reverted
    ∧ (handleScroll cfg none false s st).2.filter isEnterLeave = [] := by
  have hb : ¬(s ≤ st.bounds.offsetStart) := not_le.mpr h1
  have ha : ¬(st.bounds.offsetEnd ≤ s) := not_le.mpr h2
  simp [handleScroll, hiv, hhe, hfe, hb, ha, hr,
    filter_enterLeave_complete, filter_enterLeave_update, isEnterLeave]

/-- A tick strictly inside the bounds while already in view: no
enter/leave callbacks, flags unchanged. -/
lemma step_inview_stay (cfg : SOConfig) (s : ℚ) (st : SOState)
    (hiv : st.isInView = true) (hhe : st.hasEntered = true)
    (h1 : st.bounds.offsetStart < s) (h2 : s < st.bounds.offsetEnd)
    (hr : cfg.rpt = true) :
    (handleScroll cfg none false s st).1.isInView = true
    ∧ (handleScroll cfg none false s st).1.hasEntered = true
    ∧ (handleScroll cfg none false s st).1.forceEnter = st.forceEnter
    ∧ (handleScroll cfg none false s st).1.reverted = st.reverted
    ∧ (handleScroll cfg none false s st).2.filter isEnterLeave = [] := by
  have hb : ¬(s ≤ st.bounds.offsetStart) := not_le.mpr h1
  have ha : ¬(st.bounds.offsetEnd ≤ s) := not_le.mpr h2
  simp [handleScroll, hiv, hhe, hb, ha, hr,
    filter_enterLeave_complete, filter_enterLeave_update, isEnterLeave]

/-- A tick at or beyond `offsetEnd` while in view: the leave callbacks
fire once, in order, with the forward variants under forward
direction. -/
lemma step_leave (cfg : SOConfig) (s : ℚ) (st : SOState)
    (hiv : st.isInView = true) (hhe : st.hasEntered = true)
    (hs : st.bounds.offsetEnd ≤ s)
    (hr : cfg.rpt = true) :
    (handleScroll cfg none false s st).1.isInView = false
    ∧ (handleScroll cfg none false s st).1.hasEntered = true
    ∧ (handleScroll cfg none false s st).1.forceEnter = st.forceEnter
    ∧ (handleScroll cfg none false s st).1.reverted = st.reverted
    ∧ (handleScroll cfg none false s st).2.filter isEnterLeave
        = [SOEvent.syncLeave, SOEvent.leave, SOEvent.syncLeaveForward, SOEvent.leaveForward] := by
  simp [handleScroll, hiv, hhe, hs, hr,
    filter_enterLeave_complete, filter_enterLeave_update, isEnterLeave]
  intro a _ _ _ _ _ ha
  subst ha
  rfl

/-- Phase lemma: once entered and out of view again, a tail of samples
all at or beyond `offsetEnd` fires no further enter/leave callbacks. -/
lemma run_after_leave (cfg : SOConfig) (hr : cfg.rpt = true) :
    ∀ (ss : List ℚ) (st : SOState), st.isInView = false → st.hasEntered = true →
      st.reverted = false → (∀ s ∈ ss, st.bounds.offsetEnd ≤ s) →
      (runScroll cfg none false st ss).2.filter isEnterLeave = [] := by
  intro ss
  induction ss with
  | nil =>
    intro st _ _ _ _
    simp [runScroll]
  | cons s rest ih =>
    intro st hiv hhe hrev hall
    have hstep := step_silent cfg s st hiv (Or.inl hhe)
      (Or.inr (hall s (List.mem_cons_self s rest))) hr
    have hbnd := handleScroll_bounds cfg none false s st
    have htail : (runScroll cfg none false (handleScroll cfg none false s st).1 rest).2.filter
        isEnterLeave = [] := by
      apply ih
      · exact hstep.1
      · rw [hstep.2.1]
        exact hhe
      · rw [hstep.2.2.2.1]
        exact hrev
      · intro x hx
        rw [hbnd]
        exact hall x (List.mem_cons_of_mem s hx)
    rw [runScroll, hrev, if_neg Bool.false_ne_true]
    simp only [List.filter_append]
    rw [hstep.2.2.2.2, htail]
    rfl

/-- Phase lemma: while in view, a sorted tail strictly past
`offsetStart` that eventually reaches `offsetEnd` fires the leave
callbacks exactly once, in order, and nothing else. -/
lemma run_inview (cfg : SOConfig) (hr : cfg.rpt = true) :
    ∀ (ss : List ℚ) (st : SOState), st.isInView = true → st.hasEntered = true →
      st.reverted = false → ss.Sorted (· ≤ ·) →
      (∀ s ∈ ss, st.bounds.offsetStart < s) →
      (∃ s ∈ ss, st.bounds.offsetEnd ≤ s) →
      (runScroll cfg none false st ss).2.filter isEnterLeave
        = [SOEvent.syncLeave, SOEvent.leave, SOEvent.syncLeaveForward, SOEvent.leaveForward] := by
  intro ss
  induction ss with
  | nil =>
    intro st _ _ _ _ _ hex
    simp at hex
  | cons s rest ih =>
    intro st hiv hhe hrev hsort hall hex
    have hsc := List.sorted_cons.mp hsort
    have hbnd := handleScroll_bounds cfg none false s st
    by_cases hs : st.bounds.offsetEnd ≤ s
    · have hstep := step_leave cfg s st hiv hhe hs hr
      have htail : (runScroll cfg none false (handleScroll cfg none false s st).1 rest).2.filter
          isEnterLeave = [] := by
        apply run_after_leave cfg hr rest
        · exact hstep.1
        · exact hstep.2.1
        · rw [hstep.2.2.2.1]
          exact hrev
        · intro x hx
          rw [hbnd]
          exact le_trans hs (hsc.1 x hx)
      rw [runScroll, hrev, if_neg Bool.false_ne_true]
      simp only [List.filter_append]
      rw [hstep.2.2.2.2, htail, List.append_nil]
    · have hs2 : s < st.bounds.offsetEnd := lt_of_not_le hs
      have hstep := step_inview_stay cfg s st hiv hhe (hall s (List.mem_cons_self s rest)) hs2 hr
      have htail : (runScroll cfg none false (handleScroll cfg none false s st).1 rest).2.filter
          isEnterLeave
          = [SOEvent.syncLeave, SOEvent.leave, SOEvent.syncLeaveForward, SOEvent.leaveForward] := by
        apply ih
        · exact hstep.1
        · exact hstep.2.1
        · rw [hstep.2.2.2.1]
          exact hrev
        · exact hsc.2
        · intro x hx
          rw [hbnd]
          exact hall x (List.mem_cons_of_mem s hx)
        · rcases hex with ⟨w, hw, hwp⟩
          rcases List.mem_cons.mp hw with heq | hw2
          · rw [heq] at hwp
            exact absurd hwp hs
          · exact ⟨w, hw2, by rw [hbnd]; exact hwp⟩
      rw [runScroll, hrev, if_neg Bool.false_ne_true]
      simp only [List.filter_append]
      rw [hstep.2.2.2.2, htail, List.nil_append]

/-- Phase lemma: after an edge (`forceEnter`) entry, a sorted tail at
or past `offsetStart` containing a sample strictly inside the bounds
and eventually reaching `offsetEnd` fires the leave callbacks exactly
once, in order, and no further enter callbacks. -/
lemma run_edge_entered (cfg : SOConfig) (hr : cfg.rpt = true) :
    ∀ (ss : List ℚ) (st : SOState), st.isInView = false → st.hasEntered = true →
      st.forceEnter = true → st.reverted = false → ss.Sorted (· ≤ ·) →
      (∀ s ∈ ss, st.bounds.offsetStart ≤ s) →
      (∃ s ∈ ss, st.bounds.offsetStart < s ∧ s < st.bounds.offsetEnd) →
      (∃ s ∈ ss, st.bounds.offsetEnd ≤ s) →
      (runScroll cfg none false st ss).2.filter isEnterLeave
        = [SOEvent.syncLeave, SOEvent.leave, SOEvent.syncLeaveForward, SOEvent.leaveForward] := by
  intro ss
  induction ss with
  | nil =>
    intro st _ _ _ _ _ _ hin _
    simp at hin
  | cons s rest ih =>
    intro st hiv hhe hfe hrev hsort hall hin hex
    have hsc := List.sorted_cons.mp hsort
    have hbnd := handleScroll_bounds cfg none false s st
    by_cases hs1 : st.bounds.offsetStart < s
    · by_cases hs2 : s < st.bounds.offsetEnd
      · -- silent transition into view, then the in-view phase
        have hstep := step_transition cfg s st hiv hhe hfe hs1 hs2 hr
        have htail : (runScroll cfg none false (handleScroll cfg none false s st).1 rest).2.filter
            isEnterLeave
            = [SOEvent.syncLeave, SOEvent.leave, SOEvent.syncLeaveForward,
               SOEvent.leaveForward] := by
          apply run_inview cfg hr rest
          · exact hstep.1
          · exact hstep.2.1
          · rw [hstep.2.2.2.1]
            exact hrev
          · exact hsc.2
          · intro x hx
            rw [hbnd]
            exact lt_of_lt_of_le hs1 (hsc.1 x hx)
          · rcases hex with ⟨w, hw, hwp⟩
            rcases List.mem_cons.mp hw with heq | hw2
            · rw [heq] at hwp
              exact absurd (lt_of_lt_of_le hs2 hwp) (lt_irrefl s)
            · exact ⟨w, hw2, by rw [hbnd]; exact hwp⟩
        rw [runScroll, hrev, if_neg Bool.false_ne_true]
        simp only [List.filter_append]
        rw [hstep.2.2.2.2, htail, List.nil_append]
      · -- impossible: a strictly interior sample would have to follow a
        -- sample already at or past offsetEnd
        exfalso
        rcases hin with ⟨i, hiMem, hi1, hi2⟩
        rcases List.mem_cons.mp hiMem with heq | hi3
        · rw [heq] at hi2
          exact hs2 hi2
        · exact hs2 (lt_of_le_of_lt (hsc.1 i hi3) hi2)
    · -- s = offsetStart (the only value allowed at or below it): silent
      have hstep := step_silent cfg s st hiv (Or.inl hhe) (Or.inl (not_lt.mp hs1)) hr
      have htail : (runScroll cfg none false (handleScroll cfg none false s st).1 rest).2.filter
          isEnterLeave
          = [SOEvent.syncLeave, SOEvent.leave, SOEvent.syncLeaveForward, SOEvent.leaveForward] := by
        apply ih
        · exact hstep.1
        · rw [hstep.2.1]
          exact hhe
        · rw [hstep.2.2.1]
          exact hfe
        · rw [hstep.2.2.2.1]
          exact hrev
        · exact hsc.2
        · intro x hx
          rw [hbnd]
          exact hall x (List.mem_cons_of_mem s hx)
        · rcases hin with ⟨i, hiMem, hi1, hi2⟩
          rcases List.mem_cons.mp hiMem with heq | hi3
          · rw [heq] at hi1
            exact absurd hi1 hs1
          · exact ⟨i, hi3, by rw [hbnd]; exact ⟨hi1, hi2⟩⟩
        · rcases hex with ⟨w, hw, hwp⟩
          rcases List.mem_cons.mp hw with heq | hw2
          · exfalso
            rcases hin with ⟨i, _, hi1, hi2⟩
            rw [heq] at hwp
            have : st.bounds.offsetStart < st.bounds.offsetEnd := lt_trans hi1 hi2
            exact hs1 (lt_of_lt_of_le this hwp)
          · exact ⟨w, hw2, by rw [hbnd]; exact hwp⟩
      rw [runScroll, hrev, if_neg Bool.false_ne_true]
      simp only [List.filter_append]
      rw [hstep.2.2.2.2, htail, List.nil_append]

/-- Phase lemma: from a fresh (never-entered) state, a sorted sweep
containing a sample strictly inside the bounds and eventually reaching
`offsetEnd` fires the enter callbacks exactly once and then the leave
callbacks exactly once, in program order, forward variants only. -/
lemma run_fresh (cfg : SOConfig) (hr : cfg.rpt = true) :
    ∀ (ss : List ℚ) (st : SOState), st.isInView = false → st.hasEntered = false →
      st.forceEnter = false → st.reverted = false → ss.Sorted (· ≤ ·) →
      (∃ s ∈ ss, st.bounds.offsetStart < s ∧ s < st.bounds.offsetEnd) →
      (∃ s ∈ ss, st.bounds.offsetEnd ≤ s) →
      (runScroll cfg none false st ss).2.filter isEnterLeave
        = [SOEvent.syncEnter, SOEvent.enter, SOEvent.syncEnterForward, SOEvent.enterForward,
           SOEvent.syncLeave, SOEvent.leave, SOEvent.syncLeaveForward, SOEvent.leaveForward] := by
  intro ss
  induction ss with
  | nil =>
    intro st _ _ _ _ _ hin _
    simp at hin
  | cons s rest ih =>
    intro st hiv hhe hfe hrev hsort hin hex
    have hsc := List.sorted_cons.mp hsort
    have hbnd := handleScroll_bounds cfg none false s st
    have hltb : st.bounds.offsetStart < st.bounds.offsetEnd := by
      rcases hin with ⟨i, _, hi1, hi2⟩
      exact lt_trans hi1 hi2
    by_cases hs0 : s < st.bounds.offsetStart
    · -- before the start bound: silent, recurse
      have hstep := step_silent cfg s st hiv
        (Or.inr ⟨ne_of_lt hs0, ne_of_lt (lt_trans hs0 hltb)⟩) (Or.inl (le_of_lt hs0)) hr
      have htail : (runScroll cfg none false (handleScroll cfg none false s st).1 rest).2.filter
          isEnterLeave
          = [SOEvent.syncEnter, SOEvent.enter, SOEvent.syncEnterForward, SOEvent.enterForward,
             SOEvent.syncLeave, SOEvent.leave, SOEvent.syncLeaveForward,
             SOEvent.leaveForward] := by
        apply ih
        · exact hstep.1
        · rw [hstep.2.1]
          exact hhe
        · rw [hstep.2.2.1]
          exact hfe
        · rw [hstep.2.2.2.1]
          exact hrev
        · exact hsc.2
        · rcases hin with ⟨i, hiMem, hi1, hi2⟩
          rcases List.mem_cons.mp hiMem with heq | hi3
          · rw [heq] at hi1
            exact absurd (lt_trans hs0 hi1) (lt_irrefl s)
          · exact ⟨i, hi3, by rw [hbnd]; exact ⟨hi1, hi2⟩⟩
        · rcases hex with ⟨w, hw, hwp⟩
          rcases List.mem_cons.mp hw with heq | hw2
          · rw [heq] at hwp
            exact absurd (lt_of_lt_of_le (lt_trans hs0 hltb) hwp) (lt_irrefl s)
          · exact ⟨w, hw2, by rw [hbnd]; exact hwp⟩
      rw [runScroll, hrev, if_neg Bool.false_ne_true]
      simp only [List.filter_append]
      rw [hstep.2.2.2.2, htail, List.nil_append]
    · by_cases hs1 : s = st.bounds.offsetStart
      · -- exactly on the start bound: forceEnter entry, then the
        -- edge-entered phase
        have hstep := step_enter_edge_start cfg s st hiv hhe hfe hs1 hltb hr
        have htail : (runScroll cfg none false (handleScroll cfg none false s st).1 rest).2.filter
            isEnterLeave
            = [SOEvent.syncLeave, SOEvent.leave, SOEvent.syncLeaveForward,
               SOEvent.leaveForward] := by
          apply run_edge_entered cfg hr rest
          · exact hstep.1
          · exact hstep.2.1
          · exact hstep.2.2.1
          · rw [hstep.2.2.2.1]
            exact hrev
          · exact hsc.2
          · intro x hx
            rw [hbnd, ← hs1]
            exact hsc.1 x hx
          · rcases hin with ⟨i, hiMem, hi1, hi2⟩
            rcases List.mem_cons.mp hiMem with heq | hi3
            · rw [heq, hs1] at hi1
              exact absurd hi1 (lt_irrefl _)
            · exact ⟨i, hi3, by rw [hbnd]; exact ⟨hi1, hi2⟩⟩
          · rcases hex with ⟨w, hw, hwp⟩
            rcases List.mem_cons.mp hw with heq | hw2
            · exfalso
              rw [heq, hs1] at hwp
              exact absurd (lt_of_lt_of_le hltb hwp) (lt_irrefl _)
            · exact ⟨w, hw2, by rw [hbnd]; exact hwp⟩
        rw [runScroll, hrev, if_neg Bool.false_ne_true]
        simp only [List.filter_append]
        rw [hstep.2.2.2.2, htail]
        rfl
      · -- strictly past the start bound
        have hs2 : st.bounds.offsetStart < s := lt_of_le_of_ne (not_lt.mp hs0) (Ne.symm hs1)
        by_cases hs3 : s < st.bounds.offsetEnd
        · -- strictly inside: normal entry, then the in-view phase
          have hstep := step_enter_interior cfg s st hiv hhe hfe hs2 hs3 hr
          have htail : (runScroll cfg none false (handleScroll cfg none false s st).1
              rest).2.filter isEnterLeave
              = [SOEvent.syncLeave, SOEvent.leave, SOEvent.syncLeaveForward,
                 SOEvent.leaveForward] := by
            apply run_inview cfg hr rest
            · exact hstep.1
            · exact hstep.2.1
            · rw [hstep.2.2.2.1]
              exact hrev
            · exact hsc.2
            · intro x hx
              rw [hbnd]
              exact lt_of_lt_of_le hs2 (hsc.1 x hx)
            · rcases hex with ⟨w, hw, hwp⟩
              rcases List.mem_cons.mp hw with heq | hw2
              · rw [heq] at hwp
                exact absurd (lt_of_lt_of_le hs3 hwp) (lt_irrefl s)
              · exact ⟨w, hw2, by rw [hbnd]; exact hwp⟩
          rw [runScroll, hrev, if_neg Bool.false_ne_true]
          simp only [List.filter_append]
          rw [hstep.2.2.2.2, htail]
          rfl
        · -- impossible: the strictly interior sample cannot follow a
          -- sample already at or past offsetEnd
          exfalso
          rcases hin with ⟨i, hiMem, hi1, hi2⟩
          rcases List.mem_cons.mp hiMem with heq | hi3
          · rw [heq] at hi2
            exact hs3 hi2
          · exact hs3 (lt_of_le_of_lt (hsc.1 i hi3) hi2)

/-- Counterexample to claim C2 as stated: a monotonic forward sweep
`[-1, 0, 11]` from before `offsetStart = 0` to after `offsetEnd = 10`
(fresh observer, forward direction, repeat left at its default `true`,
default method sync, no linked object) in which the middle sample lands
exactly on the start bound: the enter callbacks fire once via the
`forceEnter` branch, but the leave callbacks never fire, because the
sweep jumps past `offsetEnd` without ever being in view. -/
theorem C2_counterexample :
    (runScroll ⟨true, true, none, none⟩ none false
        ⟨false, false, false, false, false, false, 0, ⟨0, 10, 10⟩⟩ [-1, 0, 11]).2
      = [SOEvent.syncEnter, SOEvent.enter, SOEvent.syncEnterForward, SOEvent.enterForward]
    ∧ SOEvent.leave ∉ (runScroll ⟨true, true, none, none⟩ none false
        ⟨false, false, false, false, false, false, 0, ⟨0, 10, 10⟩⟩ [-1, 0, 11]).2
    ∧ List.Sorted (· ≤ ·) [(-1 : ℚ), 0, 11]
    ∧ (-1 : ℚ) < 0 ∧ (10 : ℚ) < 11 := by
  have hev : (runScroll ⟨true, true, none, none⟩ none false
      ⟨false, false, false, false, false, false, 0, ⟨0, 10, 10⟩⟩ [-1, 0, 11]).2
      = [SOEvent.syncEnter, SOEvent.enter, SOEvent.syncEnterForward, SOEvent.enterForward] := by
    norm_num [runScroll, handleScroll, progressAt, jsDivide, jsClampDiv, jsRoundDiv, jsClamp,
      jsRound, smoothTruthy]
  refine ⟨hev, ?_, ?_, by norm_num, by norm_num⟩
  · rw [hev]
    simp
  · norm_num [List.sorted_cons]

/-- Claim C2, amended: for a single monotonic forward scroll sweep from
before `offsetStart` to after `offsetEnd` that contains at least one
sample strictly between the bounds — observer freshly attached, repeat
left at its default `true`, no linked object, container direction flags
indicating forward — folding `handleScroll` over the sweep fires the
enter callbacks (`onSyncEnter`, `onEnter`, then `onEnterForward`)
exactly once and the leave callbacks (`onSyncLeave`, `onLeave`, then
`onLeaveForward`) exactly once, the enter before the leave, even when a
sample lands exactly on a bound (the `forceEnter` branch). -/
theorem C2_enter_leave_exactly_once (cfg : SOConfig) (hr : cfg.rpt = true)
    (st : SOState) (hiv : st.isInView = false) (hhe : st.hasEntered = false)
    (hfe : st.forceEnter = false) (hrev : st.reverted = false)
    (ss : List ℚ) (hsort : ss.Sorted (· ≤ ·))
    (_hfrom : ∃ s ∈ ss, s < st.bounds.offsetStart)
    (hin : ∃ s ∈ ss, st.bounds.offsetStart < s ∧ s < st.bounds.offsetEnd)
    (hto : ∃ s ∈ ss, st.bounds.offsetEnd < s) :
    (runScroll cfg none false st ss).2.filter isEnterLeave
      = [SOEvent.syncEnter, SOEvent.enter, SOEvent.syncEnterForward, SOEvent.enterForward,
         SOEvent.syncLeave, SOEvent.leave, SOEvent.syncLeaveForward, SOEvent.leaveForward] := by
  rcases hto with ⟨w, hw, hwp⟩
  exact run_fresh cfg hr ss st hiv hhe hfe hrev hsort hin ⟨w, hw, le_of_lt hwp⟩

/-- Witness for C2 (amended) at the concrete sweep `[-1, 5, 11]` over
bounds `(0, 10)`. -/
theorem C2_enter_leave_witness :
    (runScroll ⟨true, true, none, none⟩ none false
        ⟨false, false, false, false, false, false, 0, ⟨0, 10, 10⟩⟩ [-1, 5, 11]).2.filter
        isEnterLeave
      = [SOEvent.syncEnter, SOEvent.enter, SOEvent.syncEnterForward, SOEvent.enterForward,
         SOEvent.syncLeave, SOEvent.leave, SOEvent.syncLeaveForward, SOEvent.leaveForward] := by
  apply C2_enter_leave_exactly_once ⟨true, true, none, none⟩ rfl _ rfl rfl rfl rfl
  · norm_num [List.sorted_cons]
  · exact ⟨-1, by simp, by norm_num⟩
  · exact ⟨5, by simp, by constructor <;> norm_num⟩
  · exact ⟨11, by simp, by norm_num⟩

/-- Counterexample to claim C3 as stated: with the default
method-trigger synchronization (`sync` omitted resolves to
`'play pause'`, so `this.sync` is true), `repeat = false` and no linked
object, the first tick in which progress reaches `1` while `began` is
true and `completed` is false — a jump from fresh state straight to
scroll `20` past `offsetEnd = 10` — does not set `completed` and does
not revert, because the completion condition additionally requires the
sync-completion flag, which only a leave tick can set. -/
theorem C3_counterexample :
    progressAt ⟨0, 10, 10⟩ 20 = 1
    ∧ (handleScroll ⟨false, true, none, none⟩ none false 20
        ⟨false, false, false, false, false, false, 0, ⟨0, 10, 10⟩⟩).1.began = true
    ∧ (handleScroll ⟨false, true, none, none⟩ none false 20
        ⟨false, false, false, false, false, false, 0, ⟨0, 10, 10⟩⟩).1.completed = false
    ∧ (handleScroll ⟨false, true, none, none⟩ none false 20
        ⟨false, false, false, false, false, false, 0, ⟨0, 10, 10⟩⟩).1.reverted = false
    ∧ (handleScroll ⟨false, true, none, none⟩ none false 20
        ⟨false, false, false, false, false, false, 0, ⟨0, 10, 10⟩⟩).2 = [] := by
  norm_num [handleScroll, progressAt, jsDivide, jsClampDiv, jsRoundDiv, jsClamp, jsRound,
    smoothTruthy]
  decide

/-- Claim C3, amended: for every `ScrollObserver` with `repeat = false`,
no linked object, and synchronization disabled (`sync` falsy), any
`handleScroll` tick in which progress reaches `1` while `completed` is
false (`began` necessarily becomes true within the tick via the
`p > 0` rule) sets `completed`, invokes `revert()` — removing the
observer from its container's list — and subsequent container ticks
invoke none of its callbacks. -/
theorem C3_complete_reverts (cfg : SOConfig) (hsf : cfg.sync = false) (hr : cfg.rpt = false)
    (bw : Bool) (st : SOState) (_hrev : st.reverted = false) (hc : st.completed = false)
    (s : ℚ) (hp : 1 ≤ progressAt st.bounds s) :
    (handleScroll cfg none bw s st).1.began = true
    ∧ (handleScroll cfg none bw s st).1.completed = true
    ∧ (handleScroll cfg none bw s st).1.reverted = true
    ∧ SOEvent.revert ∈ (handleScroll cfg none bw s st).2
    ∧ ∀ ss : List ℚ, runScroll cfg none bw (handleScroll cfg none bw s st).1 ss
        = ((handleScroll cfg none bw s st).1, []) := by
  have hp0 : (0 : ℚ) < progressAt st.bounds s := lt_of_lt_of_le one_pos hp
  have hnp : ¬(progressAt st.bounds s < 1) := not_lt.mpr hp
  have hbeg : (handleScroll cfg none bw s st).1.began = true := by
    cases hB : st.began <;> cases hBe : decide (s ≤ st.bounds.offsetStart) <;>
      simp [handleScroll, hB, hBe, hp0]
  have hcomp : (handleScroll cfg none bw s st).1.completed = true := by
    cases hB : st.began <;> cases hBe : decide (s ≤ st.bounds.offsetStart) <;>
      simp [handleScroll, hB, hBe, hp0, hp, hnp, hsf, hc]
  have hrv : (handleScroll cfg none bw s st).1.reverted = true := by
    cases hB : st.began <;> cases hBe : decide (s ≤ st.bounds.offsetStart) <;>
      simp [handleScroll, hB, hBe, hp0, hp, hnp, hsf, hc, hr]
  have hmem : SOEvent.revert ∈ (handleScroll cfg none bw s st).2 := by
    cases hB : st.began <;> cases hBe : decide (s ≤ st.bounds.offsetStart) <;>
      simp [handleScroll, hB, hBe, hp0, hp, hnp, hsf, hc, hr]
  refine ⟨hbeg, hcomp, hrv, hmem, ?_⟩
  intro ss
  cases ss with
  | nil => rfl
  | cons a l => rw [runScroll, hrv, if_pos rfl]

/-- Witness for C3 (amended) at a concrete input: `sync: false`,
`repeat: false`, bounds `(0, 10, 10)`, fresh state, one tick at scroll
`20`. -/
theorem C3_complete_witness :
    (handleScroll ⟨false, false, none, none⟩ none false 20
        ⟨false, false, false, false, false, false, 0, ⟨0, 10, 10⟩⟩).1.reverted = true
    ∧ SOEvent.revert ∈ (handleScroll ⟨false, false, none, none⟩ none false 20
        ⟨false, false, false, false, false, false, 0, ⟨0, 10, 10⟩⟩).2 := by
  have h := C3_complete_reverts ⟨false, false, none, none⟩ rfl rfl false
    ⟨false, false, false, false, false, false, 0, ⟨0, 10, 10⟩⟩ rfl rfl 20 ?_
  · exact ⟨h.2.2.1, h.2.2.2.1⟩
  · norm_num [progressAt, jsDivide, jsClampDiv, jsRoundDiv, jsClamp, jsRound]
    decide

/-- Witness for C10 at concrete inputs: a linked object defining `play`
and `pause` for the default config, and the explicit falsy value
`sync: false`. -/
theorem C10_sync_witness :
    invokeSyncMethod (some ⟨["play", "pause"]⟩) (mkSyncConfig SyncParam.undef).onSyncEnterName
      = ["play"]
    ∧ ((mkSyncConfig (SyncParam.boolean false)).sync = false
        ↔ (SyncParam.boolean false).truthy = false) := by
  refine ⟨C10_sync_default.2.2.2.1 ⟨["play", "pause"]⟩ (by simp),
    C10_sync_default.2.2.2.2.2.2.2.2 (SyncParam.boolean false) (by simp)⟩
